import Mathlib

/-!
Verification development for the TaskBot repository (src/bot.py).

The Python module `bot.py` is shallowly embedded here:

* the SQLAlchemy `tasks` table becomes an explicit store state `DB`
  (a list of rows plus the autoincrement counter for the integer
  primary key);
* `TaskRepository.create/read/update/delete/list` become pure state
  transformers over `DB`;
* `TaskAnalyzer.analyze` (the string parsing of the language-model
  completion) becomes a total function returning `PyResult`, whose
  `err` constructors model the Python exceptions (`IndexError` from
  `split(":")[1]`, `ValueError` from `int(...)`, `KeyError` from
  `analysis["..."]`) that the source can raise;
* `TaskService.handle_action` and the bot's message handler are
  embedded on top of these.

Timestamps (`datetime.utcnow`) are modelled by an explicit `now : Nat`
parameter; the chat transport and the language-model call are external
collaborators, so the message handler is modelled as a function of the
completion text the chain returns.
-/

namespace TaskBot

/-- A row of the `tasks` table: `id` (integer primary key), `user_id`,
`description`, `created_at` (timestamp, modelled as `Nat`). -/
structure Task where
  id : Int
  user_id : Int
  description : String
  created_at : Nat
deriving DecidableEq

/-- The persistence store: the list of rows of the `tasks` table in
insertion order, together with the autoincrement counter that yields
the next primary key (SQLite assigns 1, 2, 3, ...). -/
structure DB where
  tasks : List Task
  next_id : Int
deriving DecidableEq

/-- A freshly created (empty) store; the first assigned id is 1. -/
def emptyDB : DB := ⟨[], 1⟩

/-- Store invariant provided by the relational engine: primary keys are
below the autoincrement counter and pairwise distinct. -/
def DB.WF (db : DB) : Prop :=
  (∀ t ∈ db.tasks, t.id < db.next_id) ∧
    db.tasks.Pairwise (fun a b => a.id ≠ b.id)

/-- Pydantic `TaskCreate`. -/
structure TaskCreate where
  description : String
deriving DecidableEq

/-- Pydantic `TaskUpdate` (`description: Optional[str] = None`). -/
structure TaskUpdate where
  description : Option String
deriving DecidableEq

/-- Pydantic `TaskResponse`. -/
structure TaskResponse where
  id : Int
  description : String
  created_at : Nat
deriving DecidableEq

/-- Build a `TaskResponse` from a stored row, as every repository
method does. -/
def TaskResponse.ofTask (t : Task) : TaskResponse :=
  ⟨t.id, t.description, t.created_at⟩

/-- The `where` clause used by `read`, `update` and `delete`:
`select(Task).where(Task.id == task_id, Task.user_id == user_id)`. -/
def taskKey (task_id user_id : Int) (t : Task) : Bool :=
  t.id == task_id && t.user_id == user_id

/-- Replace the first element satisfying `p` by `new`; models the ORM
mutating the single row object returned by `scalar_one_or_none`. -/
def updFirst (p : Task → Bool) (new : Task) : List Task → List Task
  | [] => []
  | x :: xs => if p x then new :: xs else x :: updFirst p new xs

namespace TaskRepository

/-- `TaskRepository.create`: inserts a row with the next primary key and
the current timestamp, commits, and returns the refreshed row.

The source line 50 reads `created_at=db_task(created_at` — a syntax
slip (unbalanced parenthesis, `db_task` applied as a function) for the
evident `created_at=db_task.created_at)`, which is what the module's
own test `test_task_crud` exercises; the repaired intent is embedded
here (see claim C2). -/
def create (db : DB) (now : Nat) (user_id : Int) (task : TaskCreate) :
    TaskResponse × DB :=
  let t : Task := ⟨db.next_id, user_id, task.description, now⟩
  (TaskResponse.ofTask t, ⟨db.tasks ++ [t], db.next_id + 1⟩)

/-- `TaskRepository.read`: the row with the given id owned by the given
user, or `none` (`scalar_one_or_none`, unique under `DB.WF`). -/
def read (db : DB) (user_id task_id : Int) : Option TaskResponse :=
  (db.tasks.find? (taskKey task_id user_id)).map TaskResponse.ofTask

/-- `TaskRepository.update`: if the row is found and owned, overwrite
the description only when the new value is truthy (`if
task.description:` — so `None` and `""` leave it unchanged), commit,
and return the refreshed row; else `none`. -/
def update (db : DB) (user_id task_id : Int) (task : TaskUpdate) :
    Option TaskResponse × DB :=
  match db.tasks.find? (taskKey task_id user_id) with
  | none => (none, db)
  | some t =>
    let newDesc :=
      match task.description with
      | some d => if d = "" then t.description else d
      | none => t.description
    let t2 : Task := { t with description := newDesc }
    (some (TaskResponse.ofTask t2),
      ⟨updFirst (taskKey task_id user_id) t2 db.tasks, db.next_id⟩)

/-- `TaskRepository.delete`: if the row is found and owned, remove it
and return `true`; else return `false` with the store unchanged. -/
def delete (db : DB) (user_id task_id : Int) : Bool × DB :=
  match db.tasks.find? (taskKey task_id user_id) with
  | some _ =>
    (true, ⟨db.tasks.eraseP (taskKey task_id user_id), db.next_id⟩)
  | none => (false, db)

/-- `TaskRepository.list`: all rows owned by the user, in table order. -/
def list (db : DB) (user_id : Int) : List TaskResponse :=
  (db.tasks.filter (fun t => t.user_id == user_id)).map TaskResponse.ofTask

end TaskRepository

/-! ### Operation traces for claim C9 -/

/-- A user-issued repository write: a create or a delete. -/
inductive Op
  | create (desc : String)
  | delete (id : Int)
deriving DecidableEq

/-- Run a list of writes by user `u` against the store. -/
def runOps (now : Nat) (u : Int) : DB → List Op → DB
  | db, [] => db
  | db, Op.create d :: rest =>
    runOps now u (TaskRepository.create db now u ⟨d⟩).2 rest
  | db, Op.delete i :: rest =>
    runOps now u (TaskRepository.delete db u i).2 rest

/-- Every delete in the trace succeeds (returns `True`) at its point. -/
def opsSucceed (now : Nat) (u : Int) : DB → List Op → Bool
  | _, [] => true
  | db, Op.create d :: rest =>
    opsSucceed now u (TaskRepository.create db now u ⟨d⟩).2 rest
  | db, Op.delete i :: rest =>
    (TaskRepository.delete db u i).1 &&
      opsSucceed now u (TaskRepository.delete db u i).2 rest

def countCreates : List Op → Nat
  | [] => 0
  | Op.create _ :: rest => countCreates rest + 1
  | Op.delete _ :: rest => countCreates rest

def countDeletes : List Op → Nat
  | [] => 0
  | Op.create _ :: rest => countDeletes rest
  | Op.delete _ :: rest => countDeletes rest + 1

/-! ### Embedding of the Python string primitives used by
`TaskAnalyzer.analyze`

`str.split(sep)` (non-empty separator), `str.strip()`, `str.strip('"')`
and `int(...)` are modelled on `List Char`.  `String.data` bridges to
`String`. -/

/-- Python's default `str.strip()` whitespace class (ASCII part; the
completions handled here are ASCII). -/
def pyIsSpace (c : Char) : Bool :=
  c == ' ' || c == '\t' || c == '\n' || c == '\r' || c == '\x0b' || c == '\x0c'

/-- Remove trailing characters satisfying `p`. -/
def rstripBy (p : Char → Bool) (l : List Char) : List Char :=
  (l.reverse.dropWhile p).reverse

/-- Python `s.strip()`. -/
def pyStripL (l : List Char) : List Char :=
  rstripBy pyIsSpace (l.dropWhile pyIsSpace)

/-- Python `s.strip('"')`. -/
def stripQuotesL (l : List Char) : List Char :=
  rstripBy (fun c => c == '"') (l.dropWhile (fun c => c == '"'))

/-- Worker for `str.split(sep)` with non-empty separator `c :: cs`:
scan left to right, splitting at each leftmost non-overlapping
occurrence.  `fuel` bounds the recursion; it never runs out when
started at the length of the scanned list (each step consumes at least
one character). -/
def splitGoF (c : Char) (cs : List Char) : Nat → List Char → List Char → List (List Char)
  | _, [], acc => [acc.reverse]
  | 0, s, acc => [acc.reverse ++ s]
  | fuel + 1, d :: s', acc =>
    if (c :: cs).isPrefixOf (d :: s') then
      acc.reverse :: splitGoF c cs fuel ((d :: s').drop (cs.length + 1)) []
    else
      splitGoF c cs fuel s' (d :: acc)

/-- Python `s.split(sep)` on `List Char`.  For the empty separator
Python raises `ValueError`; the sources only split on the non-empty
literals `","`, `":"`, `"Description:"` and `"ID:"`. -/
def pySplitL (sep s : List Char) : List (List Char) :=
  match sep with
  | [] => [s]
  | c :: cs => splitGoF c cs s.length s []

/-- Decimal value of a digit string. -/
def digitsVal (l : List Char) : Nat :=
  l.foldl (fun acc c => acc * 10 + (c.toNat - 48)) 0

/-- Python `int(s)`: strips whitespace, accepts an optional sign and a
non-empty run of decimal digits, else raises `ValueError` (`none`
here).  (CPython also accepts underscore group separators and Unicode
digits; the completions under analysis use plain numerals, where the
two agree.) -/
def pyIntL (l : List Char) : Option Int :=
  let s := pyStripL l
  if !s.isEmpty && s.all Char.isDigit then
    some (Int.ofNat (digitsVal s))
  else if s.headD ' ' == '-' && !s.tail.isEmpty && s.tail.all Char.isDigit then
    some (-(Int.ofNat (digitsVal s.tail)))
  else if s.headD ' ' == '+' && !s.tail.isEmpty && s.tail.all Char.isDigit then
    some (Int.ofNat (digitsVal s.tail))
  else
    none

/-- The Python exceptions the message-handling path can raise. -/
inductive PyErr
  | indexError
  | valueError
  | keyError
deriving DecidableEq

/-- Result of a Python call: a value, or an uncaught exception. -/
inductive PyResult (α : Type)
  | ok (val : α)
  | err (e : PyErr)
deriving DecidableEq

/-- The dictionary `{"action": ..., "description": ..., "id": ...}`
returned by `TaskAnalyzer.analyze`: the action verb, with the optional
fields present exactly when the corresponding substring occurred. -/
structure Analysis where
  action : String
  description : Option String
  id : Option Int
deriving DecidableEq

/-- `TaskAnalyzer.analyze`, as a function of the completion text
`result` produced by the (external, swappable) language-model chain:

* `action = result.split(",")[0].split(":")[1].strip()` — `IndexError`
  when the first comma-chunk has no colon;
* `description = result.split("Description:")[1].strip().strip('"')`
  when `"Description:" in result`;
* `id = int(result.split("ID:")[1].strip())` when `"ID:" in result` —
  `ValueError` when that text is not an integer.

(`"sub" in result` holds exactly when `result.split(sub)` has a second
element, so both Python steps are modelled by the single `get? 1`.) -/
def TaskAnalyzer.analyze (result : String) : PyResult Analysis :=
  let rl := result.data
  let chunk := (pySplitL ",".data rl).headD []
  match (pySplitL ":".data chunk).get? 1 with
  | none => .err .indexError
  | some a =>
    let action := String.mk (pyStripL a)
    let descr : Option String :=
      match (pySplitL "Description:".data rl).get? 1 with
      | some d => some (String.mk (stripQuotesL (pyStripL d)))
      | none => none
    match (pySplitL "ID:".data rl).get? 1 with
    | none => .ok ⟨action, descr, none⟩
    | some i =>
      match pyIntL (pyStripL i) with
      | some n => .ok ⟨action, descr, some n⟩
      | none => .err .valueError

/-- Decidable check that `sep` neither occurs inside the concrete list
`a` nor can start inside `a` and overhang its end. -/
def cleanConcrete (sep a : List Char) : Bool :=
  (List.range a.length).all fun i =>
    if sep.length ≤ a.length - i then !(sep.isPrefixOf (a.drop i))
    else !((a.drop i).isPrefixOf sep)

/-! ### The service layer and the bot message handler -/

/-- `TaskService.handle_action`: dispatch on `analysis.get("action")`
and render the outcome.  `analysis["description"]` / `analysis["id"]`
raise `KeyError` when the field is missing (modelled as `.err
.keyError`); `analysis.get("description")` in the update branch
defaults to `None`. -/
def TaskService.handle_action (db : DB) (now : Nat) (user_id : Int)
    (analysis : Analysis) : PyResult (String × DB) :=
  if analysis.action = "create" then
    match analysis.description with
    | none => .err .keyError
    | some d =>
      let r := TaskRepository.create db now user_id ⟨d⟩
      .ok ("Task created: " ++ r.1.description ++ " (ID: " ++ toString r.1.id ++ ")",
        r.2)
  else if analysis.action = "read" then
    match analysis.id with
    | none => .err .keyError
    | some i =>
      match TaskRepository.read db user_id i with
      | some t => .ok ("Task: " ++ t.description ++ " (ID: " ++ toString t.id ++ ")", db)
      | none => .ok ("Task not found", db)
  else if analysis.action = "update" then
    match analysis.id with
    | none => .err .keyError
    | some i =>
      let r := TaskRepository.update db user_id i ⟨analysis.description⟩
      match r.1 with
      | some t =>
        .ok ("Task updated: " ++ t.description ++ " (ID: " ++ toString t.id ++ ")", r.2)
      | none => .ok ("Task not found", r.2)
  else if analysis.action = "delete" then
    match analysis.id with
    | none => .err .keyError
    | some i =>
      let r := TaskRepository.delete db user_id i
      .ok (if r.1 then "Task deleted" else "Task not found", r.2)
  else if analysis.action = "list" then
    let ts := TaskRepository.list db user_id
    if ts.isEmpty then .ok ("No tasks found", db)
    else
      .ok (String.intercalate "\n"
        (ts.map fun t => "ID: " ++ toString t.id ++ ", Description: " ++ t.description), db)
  else .ok ("Invalid action", db)

/-- The bot's catch-all message handler, as a function of the
completion text the language-model chain returns for the inbound
message: analyze, dispatch, respond.  There is no exception handling
around either step, so a parser exception escapes the handler. -/
def handle_message (db : DB) (now : Nat) (user_id : Int)
    (completion : String) : PyResult (String × DB) :=
  match TaskAnalyzer.analyze completion with
  | .err e => .err e
  | .ok a => TaskService.handle_action db now user_id a

example :
    TaskAnalyzer.analyze "Action: create, Description: \"Buy groceries\"" =
      .ok ⟨"create", some "Buy groceries", none⟩ := by
  decide

example : TaskAnalyzer.analyze "Action: list" = .ok ⟨"list", none, none⟩ := by
  decide

example : TaskAnalyzer.analyze "Action: delete, ID: 1" =
    .ok ⟨"delete", none, some 1⟩ := by
  decide

example : TaskAnalyzer.analyze "hello" = .err .indexError := by decide

example : TaskAnalyzer.analyze "Action: update, ID: 1, Description: \"Buy groceries and milk\"" =
    .err .valueError := by decide


/-! ### Helper lemmas about the store operations -/

lemma taskKey_iff {k u : Int} {t : Task} :
    taskKey k u t = true ↔ t.id = k ∧ t.user_id = u := by
  simp [taskKey]

lemma updFirst_self {p : Task → Bool} {t : Task} {l : List Task}
    (h : l.find? p = some t) : updFirst p t l = l := by
  induction l with
  | nil => simp at h
  | cons x xs ih =>
    by_cases hp : p x
    · rw [List.find?_cons_of_pos _ hp] at h
      cases h
      simp [updFirst, hp]
    · rw [List.find?_cons_of_neg _ hp] at h
      simp [updFirst, hp, ih h]

lemma find?_updFirst {p : Task → Bool} {t t2 : Task} {l : List Task}
    (h : l.find? p = some t) (h2 : p t2 = true) :
    (updFirst p t2 l).find? p = some t2 := by
  induction l with
  | nil => simp at h
  | cons x xs ih =>
    by_cases hp : p x
    · simp [updFirst, hp, List.find?_cons_of_pos _ h2]
    · rw [List.find?_cons_of_neg _ hp] at h
      simp [updFirst, hp, List.find?_cons_of_neg _ hp, ih h]

lemma mem_updFirst {p : Task → Bool} {t2 x : Task} {l : List Task}
    (hx : p x = false) (hm : x ∈ l) : x ∈ updFirst p t2 l := by
  induction l with
  | nil => simp at hm
  | cons y ys ih =>
    by_cases hp : p y
    · rcases List.mem_cons.1 hm with rfl | hm'
      · rw [hp] at hx; cases hx
      · simp [updFirst, hp, hm']
    · rcases List.mem_cons.1 hm with rfl | hm'
      · simp [updFirst, hp]
      · simp [updFirst, hp, ih hm']

lemma length_le_eraseP {p : Task → Bool} {l : List Task} :
    l.length ≤ (l.eraseP p).length + 1 := by
  induction l with
  | nil => simp
  | cons x xs ih =>
    by_cases hp : p x
    · simp [List.eraseP_cons_of_pos hp]
    · simp only [List.eraseP_cons_of_neg hp, List.length_cons]
      omega

lemma mem_eraseP_of_neg {p : Task → Bool} {x : Task} {l : List Task}
    (hx : p x = false) (hm : x ∈ l) : x ∈ l.eraseP p := by
  induction l with
  | nil => simp at hm
  | cons y ys ih =>
    by_cases hp : p y
    · rcases List.mem_cons.1 hm with rfl | hm'
      · rw [hp] at hx; cases hx
      · simp [List.eraseP_cons_of_pos hp, hm']
    · rcases List.mem_cons.1 hm with rfl | hm'
      · simp [List.eraseP_cons_of_neg hp]
      · simp [List.eraseP_cons_of_neg hp, ih hm']

/-- Under pairwise-distinct primary keys, erasing the row matched by
`taskKey` leaves no row matching the same key. -/
lemma find?_eraseP_key {l : List Task} {k u : Int}
    (hpw : l.Pairwise (fun a b => a.id ≠ b.id)) :
    (l.eraseP (taskKey k u)).find? (taskKey k u) = none := by
  induction l with
  | nil => simp
  | cons x xs ih =>
    rw [List.pairwise_cons] at hpw
    by_cases hp : taskKey k u x
    · rw [List.eraseP_cons_of_pos hp]
      rw [List.find?_eq_none]
      intro y hy hpy
      have hxk : x.id = k := (taskKey_iff.1 hp).1
      have hyk : y.id = k := (taskKey_iff.1 hpy).1
      exact hpw.1 y hy (by rw [hxk, hyk])
    · rw [List.eraseP_cons_of_neg hp, List.find?_cons_of_neg _ hp]
      exact ih hpw.2

lemma emptyDB_WF : emptyDB.WF :=
  ⟨by intro t ht; simp [emptyDB] at ht, by simp [emptyDB]⟩

/-! ### Claims about the repository -/

/-- Claim C1 (confirmed): cross-user isolation.  For distinct users
`A ≠ B`, after `A` creates a task with identifier `K`, user `B`'s
`read(K)` is absent, `B`'s `update(K, ...)` is absent, `B`'s
`delete(K)` returns failure, and no element of `B`'s `list()` carries
identifier `K`. -/
theorem claim_C1 (db : DB) (now : Nat) (A B : Int) (tc : TaskCreate)
    (tu : TaskUpdate) (hwf : db.WF) (hne : B ≠ A) :
    TaskRepository.read (TaskRepository.create db now A tc).2 B
        (TaskRepository.create db now A tc).1.id = none ∧
    (TaskRepository.update (TaskRepository.create db now A tc).2 B
        (TaskRepository.create db now A tc).1.id tu).1 = none ∧
    (TaskRepository.delete (TaskRepository.create db now A tc).2 B
        (TaskRepository.create db now A tc).1.id).1 = false ∧
    ∀ r ∈ TaskRepository.list (TaskRepository.create db now A tc).2 B,
      r.id ≠ (TaskRepository.create db now A tc).1.id := by
  have hfind :
      ((TaskRepository.create db now A tc).2).tasks.find?
        (taskKey (TaskRepository.create db now A tc).1.id B) = none := by
    rw [List.find?_eq_none]
    intro x hx hpx
    rcases List.mem_append.1 hx with hmem | hnew
    · have hlt := hwf.1 x hmem
      have := (taskKey_iff.1 hpx).1
      simp [TaskRepository.create, TaskResponse.ofTask] at this
      omega
    · simp [TaskRepository.create] at hnew
      have := (taskKey_iff.1 hpx).2
      rw [hnew] at this
      exact hne this.symm
  refine ⟨?_, ?_, ?_, ?_⟩
  · simp [TaskRepository.read, hfind]
  · simp [TaskRepository.update, hfind]
  · simp [TaskRepository.delete, hfind]
  · intro r hr
    simp only [TaskRepository.list, TaskRepository.create, List.filter_append,
      List.mem_map] at hr
    obtain ⟨t, htf, rfl⟩ := hr
    rw [List.mem_append] at htf
    rcases htf with hold | hnew
    · rw [List.mem_filter] at hold
      have hlt := hwf.1 t hold.1
      show t.id ≠ db.next_id
      omega
    · rw [List.mem_filter] at hnew
      have hA : t.user_id = A := by
        rcases List.mem_singleton.1 hnew.1 with rfl
        rfl
      have huser : t.user_id = B := beq_iff_eq.mp hnew.2
      exact absurd (huser.symm.trans hA) hne

/-- Witness for C1 at a concrete store. -/
theorem claim_C1_witness :
    TaskRepository.read (TaskRepository.create emptyDB 0 1 ⟨"a"⟩).2 2
        (TaskRepository.create emptyDB 0 1 ⟨"a"⟩).1.id = none :=
  (claim_C1 emptyDB 0 1 2 ⟨"a"⟩ ⟨none⟩ emptyDB_WF (by decide)).1

/-- Claim C2 (intent of the slipped source line 50): create/read round
trip.  `create` returns a fresh identifier (distinct from every stored
id) with the given description and the creation timestamp, and a
subsequent `read` by the same user returns the same description and the
same timestamp. -/
theorem claim_C2 (db : DB) (now : Nat) (u : Int) (tc : TaskCreate)
    (hwf : db.WF) :
    (TaskRepository.create db now u tc).1 = ⟨db.next_id, tc.description, now⟩ ∧
    (∀ t ∈ db.tasks, t.id ≠ (TaskRepository.create db now u tc).1.id) ∧
    TaskRepository.read (TaskRepository.create db now u tc).2 u
        (TaskRepository.create db now u tc).1.id =
      some ⟨db.next_id, tc.description, now⟩ := by
  refine ⟨rfl, ?_, ?_⟩
  · intro t ht
    have := hwf.1 t ht
    simp [TaskRepository.create, TaskResponse.ofTask]
    omega
  · have hnone : db.tasks.find? (taskKey db.next_id u) = none := by
      rw [List.find?_eq_none]
      intro x hx hpx
      have hlt := hwf.1 x hx
      have := (taskKey_iff.1 hpx).1
      omega
    simp [TaskRepository.read, TaskRepository.create, List.find?_append, hnone,
      taskKey, TaskResponse.ofTask]

/-- Witness for C2 at a concrete store. -/
theorem claim_C2_witness :
    TaskRepository.read (TaskRepository.create emptyDB 3 123 ⟨"Test task"⟩).2 123
        (TaskRepository.create emptyDB 3 123 ⟨"Test task"⟩).1.id =
      some ⟨1, "Test task", 3⟩ :=
  (claim_C2 emptyDB 3 123 ⟨"Test task"⟩ emptyDB_WF).2.2

/-- Claim C3 (confirmed): update frame.  On an owned existing task, an
absent (`None`) or empty new description leaves the store unchanged and
returns the task as stored; a non-empty description changes only the
description — the returned and re-read task keep the original
identifier and creation timestamp, and rows not matching the key are
untouched. -/
theorem claim_C3 (db : DB) (u k : Int) (t : Task) (upd : TaskUpdate)
    (hfound : db.tasks.find? (taskKey k u) = some t) :
    ((upd.description = none ∨ upd.description = some "") →
      TaskRepository.update db u k upd =
        (some ⟨t.id, t.description, t.created_at⟩, db)) ∧
    (∀ d, upd.description = some d → d ≠ "" →
      (TaskRepository.update db u k upd).1 = some ⟨t.id, d, t.created_at⟩ ∧
      TaskRepository.read (TaskRepository.update db u k upd).2 u k =
        some ⟨t.id, d, t.created_at⟩ ∧
      ∀ x ∈ db.tasks, taskKey k u x = false →
        x ∈ ((TaskRepository.update db u k upd).2).tasks) := by
  constructor
  · intro hcases
    have ht2 : ({ t with description := t.description } : Task) = t := by
      cases t; rfl
    have hdesc : (match upd.description with
        | some d => if d = "" then t.description else d
        | none => t.description) = t.description := by
      rcases hcases with h | h <;> simp [h]
    simp only [TaskRepository.update, hfound, hdesc, ht2, updFirst_self hfound,
      TaskResponse.ofTask]
  · intro d hd hne
    have hkey : taskKey k u t = true := List.find?_some hfound
    have hkey2 : taskKey k u ({ t with description := d } : Task) = true := by
      rw [taskKey_iff] at hkey ⊢
      exact hkey
    refine ⟨?_, ?_, ?_⟩
    · simp [TaskRepository.update, hfound, hd, hne, TaskResponse.ofTask]
    · simp only [TaskRepository.update, hfound, hd]
      rw [if_neg hne]
      simp only [TaskRepository.read]
      rw [find?_updFirst hfound hkey2]
      simp [TaskResponse.ofTask]
    · intro x hx hpx
      simp only [TaskRepository.update, hfound, hd]
      rw [if_neg hne]
      exact mem_updFirst hpx hx

/-- Witness for C3 at a concrete store. -/
theorem claim_C3_witness :
    (TaskRepository.update ⟨[⟨1, 9, "old", 4⟩], 2⟩ 9 1 ⟨some "new"⟩).1 =
      some ⟨1, "new", 4⟩ :=
  ((claim_C3 ⟨[⟨1, 9, "old", 4⟩], 2⟩ 9 1 ⟨1, 9, "old", 4⟩ ⟨some "new"⟩
      (by decide)).2 "new" rfl (by decide)).1

/-- Claim C4 (confirmed): delete returns success exactly when a task
with that identifier owned by that user exists (and failure — a plain
`False` value, the function is total — otherwise), and after a
successful delete the same user's `read` of that identifier is absent. -/
theorem claim_C4 (db : DB) (u k : Int) (hwf : db.WF) :
    ((TaskRepository.delete db u k).1 = true ↔
      ∃ t ∈ db.tasks, t.id = k ∧ t.user_id = u) ∧
    ((TaskRepository.delete db u k).1 = true →
      TaskRepository.read (TaskRepository.delete db u k).2 u k = none) := by
  constructor
  · constructor
    · intro hdel
      rcases hf : db.tasks.find? (taskKey k u) with _ | t
      · simp [TaskRepository.delete, hf] at hdel
      · have hmem := List.mem_of_find?_eq_some hf
        have hkey := List.find?_some hf
        exact ⟨t, hmem, taskKey_iff.1 hkey⟩
    · rintro ⟨t, hmem, hid, huser⟩
      have : (db.tasks.find? (taskKey k u)).isSome := by
        rw [List.find?_isSome]
        exact ⟨t, hmem, taskKey_iff.2 ⟨hid, huser⟩⟩
      rcases hf : db.tasks.find? (taskKey k u) with _ | t'
      · rw [hf] at this; simp at this
      · simp [TaskRepository.delete, hf]
  · intro hdel
    rcases hf : db.tasks.find? (taskKey k u) with _ | t
    · simp [TaskRepository.delete, hf] at hdel
    · simp only [TaskRepository.delete, hf, TaskRepository.read]
      rw [find?_eraseP_key hwf.2]
      rfl

/-- Witness for C4 at a concrete store. -/
theorem claim_C4_witness :
    (TaskRepository.delete ⟨[⟨1, 9, "a", 0⟩], 2⟩ 9 1).1 = true :=
  (claim_C4 ⟨[⟨1, 9, "a", 0⟩], 2⟩ 9 1
      ⟨by intro t ht; rw [List.mem_singleton] at ht; subst ht; decide, by simp⟩).1.2
    ⟨⟨1, 9, "a", 0⟩, by simp, rfl, rfl⟩

/-- Claim C8, counterexample: `create` with an empty description does
not fail — the task is stored with the empty description and can be
read back. -/
theorem claim_C8_counterexample :
    (TaskRepository.create emptyDB 0 7 ⟨""⟩).1 = ⟨1, "", 0⟩ ∧
    (TaskRepository.create emptyDB 0 7 ⟨""⟩).2.tasks = [⟨1, 7, "", 0⟩] ∧
    TaskRepository.read (TaskRepository.create emptyDB 0 7 ⟨""⟩).2 7 1 =
      some ⟨1, "", 0⟩ := by
  decide

/-- Claim C8 as amended: `create` performs no validation — for every
user, creating with an empty description succeeds and stores a task
whose description is empty. -/
theorem claim_C8 (db : DB) (now : Nat) (u : Int) :
    (TaskRepository.create db now u ⟨""⟩).1.description = "" ∧
    (TaskRepository.create db now u ⟨""⟩).2.tasks =
      db.tasks ++ [⟨db.next_id, u, "", now⟩] := by
  exact ⟨rfl, rfl⟩

/-- Claim C10 (confirmed): delete frame.  `delete` removes at most one
row (the store after deletion is a sublist of the store before, shorter
by at most one), and every row not matching both the task identifier
and the owning user is retained unchanged. -/
theorem claim_C10 (db : DB) (u k : Int) :
    List.Sublist ((TaskRepository.delete db u k).2).tasks db.tasks ∧
    db.tasks.length ≤ ((TaskRepository.delete db u k).2).tasks.length + 1 ∧
    ∀ t ∈ db.tasks, ¬(t.id = k ∧ t.user_id = u) →
      t ∈ ((TaskRepository.delete db u k).2).tasks := by
  rcases hf : db.tasks.find? (taskKey k u) with _ | t
  · simp only [TaskRepository.delete, hf]
    exact ⟨List.Sublist.refl _, by omega, fun t ht _ => ht⟩
  · simp only [TaskRepository.delete, hf]
    refine ⟨List.eraseP_sublist _, length_le_eraseP, ?_⟩
    intro x hx hnot
    apply mem_eraseP_of_neg _ hx
    rw [Bool.eq_false_iff]
    intro hkey
    exact hnot (taskKey_iff.1 hkey)

/-- Witness for C10 at a concrete store. -/
theorem claim_C10_witness :
    ⟨2, 9, "keep", 0⟩ ∈ ((TaskRepository.delete ⟨[⟨1, 9, "del", 0⟩, ⟨2, 9, "keep", 0⟩], 3⟩ 9 1).2).tasks :=
  (claim_C10 ⟨[⟨1, 9, "del", 0⟩, ⟨2, 9, "keep", 0⟩], 3⟩ 9 1).2.2
    ⟨2, 9, "keep", 0⟩ (by simp) (by decide)

lemma filter_eraseP_disjoint {p q : Task → Bool} {l : List Task}
    (h : ∀ x, p x = true → q x = false) :
    (l.eraseP p).filter q = l.filter q := by
  induction l with
  | nil => simp
  | cons x xs ih =>
    by_cases hp : p x
    · rw [List.eraseP_cons_of_pos hp, List.filter_cons_of_neg]
      rw [h x hp]
      simp
    · rw [List.eraseP_cons_of_neg hp]
      by_cases hq : q x <;> simp [List.filter_cons, hq, ih]

lemma filter_length_eraseP_found {l : List Task} {k u : Int}
    (h : (l.find? (taskKey k u)).isSome) :
    ((l.eraseP (taskKey k u)).filter (fun t => t.user_id == u)).length + 1 =
      (l.filter (fun t => t.user_id == u)).length := by
  induction l with
  | nil => simp at h
  | cons x xs ih =>
    by_cases hp : taskKey k u x
    · rw [List.eraseP_cons_of_pos hp]
      have hq : (x.user_id == u) = true := by
        rw [beq_iff_eq]
        exact (taskKey_iff.1 hp).2
      simp [List.filter_cons, hq]
    · rw [List.find?_cons_of_neg _ hp] at h
      rw [List.eraseP_cons_of_neg hp]
      by_cases hq : (x.user_id == u) <;> simp [List.filter_cons, hq, ih h]

lemma list_create_self (db : DB) (now : Nat) (u : Int) (tc : TaskCreate) :
    (TaskRepository.list (TaskRepository.create db now u tc).2 u).length =
      (TaskRepository.list db u).length + 1 := by
  simp [TaskRepository.list, TaskRepository.create, List.filter_append,
    List.filter_cons]

lemma list_create_other (db : DB) (now : Nat) (u v : Int) (tc : TaskCreate)
    (hne : v ≠ u) :
    TaskRepository.list (TaskRepository.create db now u tc).2 v =
      TaskRepository.list db v := by
  simp only [TaskRepository.list, TaskRepository.create, List.filter_append,
    List.filter_cons]
  rw [show ((⟨db.next_id, u, tc.description, now⟩ : Task).user_id == v) = false from
    beq_false_of_ne (fun h => hne (h.symm))]
  simp

lemma list_delete_other (db : DB) (u v i : Int) (hne : v ≠ u) :
    TaskRepository.list (TaskRepository.delete db u i).2 v =
      TaskRepository.list db v := by
  rcases hf : db.tasks.find? (taskKey i u) with _ | t
  · simp [TaskRepository.delete, hf]
  · simp only [TaskRepository.delete, hf, TaskRepository.list]
    rw [filter_eraseP_disjoint]
    intro x hx
    rw [taskKey_iff] at hx
    exact beq_false_of_ne (by rw [hx.2]; exact fun h => hne h.symm)

lemma delete_found_of_true {db : DB} {u i : Int}
    (h : (TaskRepository.delete db u i).1 = true) :
    (db.tasks.find? (taskKey i u)).isSome := by
  rcases hf : db.tasks.find? (taskKey i u) with _ | t
  · simp [TaskRepository.delete, hf] at h
  · simp

lemma runOps_len (now : Nat) (u : Int) :
    ∀ (ops : List Op) (db : DB), opsSucceed now u db ops = true →
      (TaskRepository.list (runOps now u db ops) u).length + countDeletes ops =
        (TaskRepository.list db u).length + countCreates ops := by
  intro ops
  induction ops with
  | nil => intro db _; simp [runOps, countCreates, countDeletes]
  | cons op rest ih =>
    intro db h
    cases op with
    | create d =>
      rw [opsSucceed] at h
      have hrec := ih _ h
      rw [list_create_self] at hrec
      simp only [runOps, countCreates, countDeletes]
      omega
    | delete i =>
      rw [opsSucceed, Bool.and_eq_true] at h
      have hrec := ih _ h.2
      have hfound := delete_found_of_true h.1
      have hlen :
          (TaskRepository.list (TaskRepository.delete db u i).2 u).length + 1 =
            (TaskRepository.list db u).length := by
        rcases hf : db.tasks.find? (taskKey i u) with _ | t
        · rw [hf] at hfound; simp at hfound
        · simp only [TaskRepository.delete, hf, TaskRepository.list,
            List.length_map]
          exact filter_length_eraseP_found (by rw [hf]; simp)
      simp only [runOps, countCreates, countDeletes]
      omega

lemma runOps_other (now : Nat) (u : Int) :
    ∀ (ops : List Op) (db : DB) (v : Int), v ≠ u →
      TaskRepository.list (runOps now u db ops) v = TaskRepository.list db v := by
  intro ops
  induction ops with
  | nil => intro db v _; rfl
  | cons op rest ih =>
    intro db v hne
    cases op with
    | create d =>
      rw [runOps, ih _ _ hne, list_create_other _ _ _ _ _ hne]
    | delete i =>
      rw [runOps, ih _ _ hne, list_delete_other _ _ _ _ hne]

/-- Claim C9 (confirmed): starting from an empty store, after a trace of
`N` creates and `M` deletes by user `u` in which every delete succeeds,
`u`'s `list()` has exactly `N − M` elements (and `M ≤ N`), any other
user's `list()` is empty, and — `list` being a pure function of the
store — repeated calls with no intervening writes return the same
result in the same order. -/
theorem claim_C9 (now : Nat) (u : Int) (ops : List Op)
    (h : opsSucceed now u emptyDB ops = true) :
    (TaskRepository.list (runOps now u emptyDB ops) u).length =
        countCreates ops - countDeletes ops ∧
    countDeletes ops ≤ countCreates ops ∧
    (∀ v, v ≠ u → TaskRepository.list (runOps now u emptyDB ops) v = []) ∧
    TaskRepository.list (runOps now u emptyDB ops) u =
      TaskRepository.list (runOps now u emptyDB ops) u := by
  have hlen := runOps_len now u ops emptyDB h
  have hempty : (TaskRepository.list emptyDB u).length = 0 := rfl
  refine ⟨by omega, by omega, ?_, rfl⟩
  intro v hv
  rw [runOps_other now u ops emptyDB v hv]
  rfl

/-- Witness for C9: two creates and one successful delete leave one task. -/
theorem claim_C9_witness :
    (TaskRepository.list
        (runOps 0 5 emptyDB [Op.create "a", Op.create "b", Op.delete 1]) 5).length =
      countCreates [Op.create "a", Op.create "b", Op.delete 1] -
        countDeletes [Op.create "a", Op.create "b", Op.delete 1] :=
  (claim_C9 0 5 [Op.create "a", Op.create "b", Op.delete 1] (by decide)).1

/-! ### Structure of `pySplitL` around separator occurrences -/

lemma splitGoF_fuel {c : Char} {cs : List Char} :
    ∀ (f g : Nat) (s acc : List Char), s.length ≤ f → s.length ≤ g →
      splitGoF c cs f s acc = splitGoF c cs g s acc := by
  intro f
  induction f with
  | zero =>
    intro g s acc hf _
    cases s with
    | nil => cases g <;> rfl
    | cons d s' => simp at hf
  | succ f ih =>
    intro g s acc hf hg
    cases s with
    | nil => cases g <;> rfl
    | cons d s' =>
      cases g with
      | zero => simp at hg
      | succ g' =>
        simp only [splitGoF]
        by_cases hp : (c :: cs).isPrefixOf (d :: s')
        · rw [if_pos hp, if_pos hp]
          have hd : ((d :: s').drop (cs.length + 1)).length ≤ s'.length := by
            simp only [List.length_drop, List.length_cons]
            omega
          simp only [List.length_cons] at hf hg
          congr 1
          exact ih g' _ _ (by omega) (by omega)
        · rw [if_neg hp, if_neg hp]
          simp only [List.length_cons] at hf hg
          exact ih g' _ _ (by omega) (by omega)

lemma splitGoF_no_occ {c : Char} {cs : List Char} :
    ∀ (f : Nat) (s acc : List Char), s.length ≤ f →
      (∀ i, ¬ (c :: cs) <+: s.drop i) →
      splitGoF c cs f s acc = [acc.reverse ++ s] := by
  intro f
  induction f with
  | zero =>
    intro s acc hf _
    cases s with
    | nil => simp [splitGoF]
    | cons d s' => simp at hf
  | succ f ih =>
    intro s acc hf H
    cases s with
    | nil => simp [splitGoF]
    | cons d s' =>
      have hp : ¬ (c :: cs).isPrefixOf (d :: s') := by
        intro hb
        exact H 0 (by simpa using List.isPrefixOf_iff_prefix.1 hb)
      simp only [splitGoF, if_neg hp]
      simp only [List.length_cons] at hf
      rw [ih s' (d :: acc) (by omega) (fun i => by simpa using H (i + 1))]
      simp

lemma splitGoF_boundary {c : Char} {cs b : List Char} :
    ∀ (f : Nat) (a acc : List Char), (a ++ (c :: cs) ++ b).length ≤ f →
      (∀ i < a.length, ¬ (c :: cs) <+: ((a ++ (c :: cs) ++ b).drop i)) →
      splitGoF c cs f (a ++ (c :: cs) ++ b) acc =
        (acc.reverse ++ a) :: splitGoF c cs b.length b [] := by
  intro f
  induction f with
  | zero =>
    intro a acc hf _
    exfalso
    simp [List.length_append] at hf
  | succ f ih =>
    intro a acc hf H
    cases a with
    | nil =>
      simp only [List.nil_append]
      have hp : (c :: cs).isPrefixOf ((c :: cs) ++ b) :=
        List.isPrefixOf_iff_prefix.2 (List.prefix_append _ _)
      have hstep : ((c :: cs) ++ b) = c :: (cs ++ b) := rfl
      rw [hstep] at hp ⊢
      simp only [splitGoF, if_pos hp]
      have hdrop : (c :: (cs ++ b)).drop (cs.length + 1) = b := by
        have : c :: (cs ++ b) = (c :: cs) ++ b := rfl
        rw [this]
        have hleft := List.drop_left (c :: cs) b
        simp only [List.length_cons] at hleft
        exact hleft
      rw [hdrop]
      congr 1
      · simp
      · apply splitGoF_fuel
        · simp only [List.length_cons, List.length_append] at hf
          omega
        · exact le_refl _
    | cons d a' =>
      have h0 := H 0 (by simp)
      have hp : ¬ (c :: cs).isPrefixOf (d :: (a' ++ (c :: cs) ++ b)) := by
        intro hb
        exact h0 (by simpa using List.isPrefixOf_iff_prefix.1 hb)
      have hstep : (d :: a') ++ (c :: cs) ++ b = d :: (a' ++ (c :: cs) ++ b) := by
        simp
      rw [hstep]
      simp only [splitGoF, if_neg hp]
      have hrec := ih a' (d :: acc)
        (by simp only [List.length_append, List.length_cons] at hf ⊢; omega)
        (by intro i hi
            have := H (i + 1) (by simpa using Nat.succ_lt_succ hi)
            rw [hstep] at this
            simpa using this)
      rw [hrec]
      simp

lemma pySplitL_no_occ {sep s : List Char} (hsep : sep ≠ [])
    (H : ∀ i, ¬ sep <+: s.drop i) : pySplitL sep s = [s] := by
  cases sep with
  | nil => exact absurd rfl hsep
  | cons c cs =>
    simp only [pySplitL]
    rw [splitGoF_no_occ s.length s [] (le_refl _) H]
    simp

lemma pySplitL_boundary {s a b : List Char} (hsep : s ≠ [])
    (H : ∀ i < a.length, ¬ s <+: ((a ++ s ++ b).drop i)) :
    pySplitL s (a ++ s ++ b) = a :: pySplitL s b := by
  cases s with
  | nil => exact absurd rfl hsep
  | cons c cs =>
    simp only [pySplitL]
    rw [splitGoF_boundary _ a [] (le_refl _) H]
    simp

/-! ### Establishing "no occurrence" side conditions -/

lemma not_occ_of_mem {sep t : List Char} {ch : Char} (hch : ch ∈ sep)
    (hnt : ch ∉ t) : ∀ i, ¬ sep <+: t.drop i :=
  fun i h => hnt (List.drop_subset i t (h.subset hch))

lemma not_occ_head {s a t : List Char} {c : Char}
    (hh : s.head? = some c) (hna : c ∉ a) :
    ∀ i < a.length, ¬ s <+: ((a ++ t).drop i) := by
  intro i hi hpre
  rw [List.drop_append_eq_append_drop, Nat.sub_eq_zero_of_le (le_of_lt hi),
    List.drop_zero, List.drop_eq_getElem_cons hi] at hpre
  cases s with
  | nil => simp at hh
  | cons x sep' =>
    have hx : x = c := by simpa using hh
    rw [List.cons_append, List.cons_prefix_cons] at hpre
    have : c ∈ a := by
      rw [← hx, hpre.1]
      exact List.getElem_mem hi
    exact hna this

lemma not_occ_cons {sep : List Char} {x : Char} {t : List Char}
    (h0 : ¬ sep <+: (x :: t)) (H : ∀ i, ¬ sep <+: t.drop i) :
    ∀ i, ¬ sep <+: ((x :: t).drop i) := by
  intro i
  cases i with
  | zero => simpa using h0
  | succ j => simpa using H j

lemma not_prefix_long {sep x t : List Char} (hlen : x.length < sep.length)
    (hnp : ¬ x <+: sep) : ¬ sep <+: (x ++ t) := by
  intro h
  exact hnp (List.prefix_of_prefix_length_le (List.prefix_append x t) h
    (le_of_lt hlen))

lemma prefix_fits {sep x t : List Char} (hlen : sep.length ≤ x.length)
    (h : sep <+: (x ++ t)) : sep <+: x :=
  List.prefix_of_prefix_length_le h (List.prefix_append x t) hlen

lemma not_occ_clean {sep a : List Char} (hc : cleanConcrete sep a = true) :
    ∀ i < a.length, ∀ t, ¬ sep <+: ((a ++ t).drop i) := by
  intro i hi t hpre
  rw [List.drop_append_eq_append_drop, Nat.sub_eq_zero_of_le (le_of_lt hi),
    List.drop_zero] at hpre
  have hb := List.all_eq_true.1 hc i (List.mem_range.2 hi)
  by_cases hl : sep.length ≤ a.length - i
  · rw [if_pos hl] at hb
    have : sep <+: a.drop i :=
      prefix_fits (by rw [List.length_drop]; exact hl) hpre
    rw [← List.isPrefixOf_iff_prefix] at this
    rw [this] at hb
    cases hb
  · rw [if_neg hl] at hb
    have hlt : (a.drop i).length < sep.length := by
      rw [List.length_drop]
      omega
    have : ¬ (a.drop i) <+: sep := by
      intro hcon
      rw [← List.isPrefixOf_iff_prefix] at hcon
      rw [hcon] at hb
      cases hb
    exact not_prefix_long hlt this hpre

lemma not_occ_clean_mem {sep p t : List Char} {ch : Char}
    (hc : cleanConcrete sep p = true) (hch : ch ∈ sep) (hnt : ch ∉ t) :
    ∀ i, ¬ sep <+: ((p ++ t).drop i) := by
  intro i
  by_cases hi : i < p.length
  · exact not_occ_clean hc i hi t
  · rw [List.drop_append_eq_append_drop,
      List.drop_eq_nil_of_le (by omega), List.nil_append]
    exact not_occ_of_mem hch hnt _

lemma not_occ_split {s A t : List Char} {c : Char}
    (hh : s.head? = some c) (hna : c ∉ A)
    (H : ∀ j, ¬ s <+: t.drop j) :
    ∀ i, ¬ s <+: ((A ++ t).drop i) := by
  intro i
  by_cases hi : i < A.length
  · exact not_occ_head hh hna i hi
  · rw [List.drop_append_eq_append_drop, List.drop_eq_nil_of_le (by omega),
      List.nil_append]
    exact H _

/-! ### Properties of the strip primitives -/

lemma dropWhile_all_neg {p : Char → Bool} {l : List Char}
    (h : ∀ c ∈ l, p c = false) : l.dropWhile p = l := by
  cases l with
  | nil => rfl
  | cons x xs =>
    rw [List.dropWhile_cons, h x (List.mem_cons_self x xs)]
    simp

lemma pyStripL_cons_space (l : List Char) :
    pyStripL (' ' :: l) = pyStripL l := by
  simp [pyStripL, List.dropWhile_cons, pyIsSpace]

lemma rstripBy_append_neg {p : Char → Bool} {l : List Char} {y : Char}
    (hy : p y = false) : rstripBy p (l ++ [y]) = l ++ [y] := by
  unfold rstripBy
  rw [List.reverse_append,
    show ([y] : List Char).reverse ++ l.reverse = y :: l.reverse from by simp,
    List.dropWhile_cons, if_neg (by simp [hy])]
  simp

lemma rstripBy_strip_one {p : Char → Bool} {l : List Char} {y : Char}
    (hy : p y = true) (h : ∀ c ∈ l, p c = false) :
    rstripBy p (l ++ [y]) = l := by
  unfold rstripBy
  rw [List.reverse_append,
    show ([y] : List Char).reverse ++ l.reverse = y :: l.reverse from by simp,
    List.dropWhile_cons, if_pos hy,
    dropWhile_all_neg (fun c hc => h c (List.mem_reverse.1 hc))]
  simp

lemma pyStripL_sandwich {x y : Char} (hx : pyIsSpace x = false)
    (hy : pyIsSpace y = false) (mid : List Char) :
    pyStripL ((x :: mid) ++ [y]) = (x :: mid) ++ [y] := by
  unfold pyStripL
  rw [show (x :: mid) ++ [y] = x :: (mid ++ [y]) from rfl,
    List.dropWhile_cons, if_neg (by simp [hx]),
    show x :: (mid ++ [y]) = (x :: mid) ++ [y] from rfl]
  exact rstripBy_append_neg hy

lemma stripQuotesL_wrap {text : List Char} (h : '"' ∉ text) :
    stripQuotesL (('"' :: text) ++ ['"']) = text := by
  unfold stripQuotesL
  rw [show ('"' :: text) ++ ['"'] = '"' :: (text ++ ['"']) from rfl,
    List.dropWhile_cons, if_pos (by simp)]
  cases text with
  | nil => simp [rstripBy]
  | cons x t' =>
    have hxne : x ≠ '"' := fun he => h (by rw [← he]; exact List.mem_cons_self x t')
    rw [show (x :: t') ++ ['"'] = x :: (t' ++ ['"']) from rfl,
      List.dropWhile_cons, if_neg (by simp [beq_false_of_ne hxne]),
      show x :: (t' ++ ['"']) = (x :: t') ++ ['"'] from rfl]
    exact rstripBy_strip_one (by simp) (fun c hc =>
      beq_false_of_ne (fun he => h (by rw [← he]; exact hc)))

lemma digit_not_space {c : Char} (h : c.isDigit = true) :
    pyIsSpace c = false := by
  cases hsp : pyIsSpace c
  · rfl
  · exfalso
    simp only [pyIsSpace, Bool.or_eq_true, beq_iff_eq] at hsp
    rcases hsp with ((((rfl | rfl) | rfl) | rfl) | rfl) | rfl <;>
      exact absurd h (by decide)

lemma pyStripL_digits {l : List Char} (h : ∀ c ∈ l, c.isDigit = true) :
    pyStripL l = l := by
  have hall : ∀ c ∈ l, pyIsSpace c = false := fun c hc => digit_not_space (h c hc)
  unfold pyStripL rstripBy
  rw [dropWhile_all_neg hall,
    dropWhile_all_neg (fun c hc => hall c (List.mem_reverse.1 hc))]
  simp

lemma pyIntL_digits {l : List Char} (hne : l ≠ []) (h : ∀ c ∈ l, c.isDigit = true) :
    pyIntL l = some (Int.ofNat (digitsVal l)) := by
  unfold pyIntL
  rw [pyStripL_digits h]
  have hcond : (!l.isEmpty && l.all Char.isDigit) = true := by
    rw [Bool.and_eq_true, List.all_eq_true]
    refine ⟨?_, h⟩
    simp [List.isEmpty_iff, hne]
  simp only [hcond, if_true]

/-! ### `analyze` on well-formed completions -/

/-- Splitting the first comma-chunk `Action: <verb>` at the colon. -/
lemma colon_split_action (verbL : List Char) (h2 : ':' ∉ verbL) :
    pySplitL ":".data ("Action: ".data ++ verbL) =
      ["Action".data, ' ' :: verbL] := by
  have hshape : "Action: ".data ++ verbL =
      "Action".data ++ ":".data ++ (' ' :: verbL) := by
    simp only [List.append_assoc]
    rfl
  rw [hshape]
  have hb := pySplitL_boundary (s := ":".data) (a := "Action".data)
    (b := ' ' :: verbL) (by decide) ?_
  · rw [hb]
    congr 1
    refine pySplitL_no_occ (by decide) ?_
    refine not_occ_of_mem (show ':' ∈ ":".data by decide) ?_
    intro hmem
    rcases List.mem_cons.1 hmem with hmem | hmem
    · exact absurd hmem (by decide)
    · exact h2 hmem
  · intro i hi
    have hgen := not_occ_head (s := ":".data) (c := ':')
      (t := ":".data ++ (' ' :: verbL)) rfl
      (show ':' ∉ "Action".data by decide) i hi
    rw [← List.append_assoc] at hgen
    exact hgen

/-- `analyze` on `Action: <verb>, Description: "<text>"` for a verb free
of the delimiter characters and a text free of `:` and `"`. -/
lemma analyze_descr (verbL text : List Char)
    (h1 : ',' ∉ verbL) (h2 : ':' ∉ verbL) (h3 : 'D' ∉ verbL) (h4 : 'I' ∉ verbL)
    (h5 : pyStripL verbL = verbL) (h6 : ':' ∉ text) (h7 : '"' ∉ text) :
    TaskAnalyzer.analyze (String.mk
        ("Action: ".data ++ verbL ++ ", Description: \"".data ++ text ++ "\"".data)) =
      .ok ⟨String.mk verbL, some (String.mk text), none⟩ := by
  set RL := "Action: ".data ++ verbL ++ ", Description: \"".data ++ text ++ "\"".data
    with hRL
  have hc1 : pySplitL ",".data RL =
      ("Action: ".data ++ verbL) ::
        pySplitL ",".data (" Description: \"".data ++ text ++ "\"".data) := by
    have hshape : RL = ("Action: ".data ++ verbL) ++ ",".data ++
        (" Description: \"".data ++ text ++ "\"".data) := by
      rw [hRL]
      simp only [List.append_assoc]
      rfl
    rw [hshape]
    refine pySplitL_boundary (by decide) ?_
    intro i hi
    have hna : ',' ∉ "Action: ".data ++ verbL := by
      intro hmem
      rcases List.mem_append.1 hmem with hmem | hmem
      · exact absurd hmem (by decide)
      · exact h1 hmem
    have hgen := not_occ_head (s := ",".data) (c := ',') (t := ",".data ++
        (" Description: \"".data ++ text ++ "\"".data)) rfl hna i hi
    rw [← List.append_assoc] at hgen
    exact hgen
  have hc2 := colon_split_action verbL h2
  have hc3 : pySplitL "Description:".data RL =
      [("Action: ".data ++ verbL ++ ", ".data),
        (" \"".data ++ text ++ "\"".data)] := by
    have hshape : RL = ("Action: ".data ++ verbL ++ ", ".data) ++
        "Description:".data ++ (" \"".data ++ text ++ "\"".data) := by
      rw [hRL]
      simp only [List.append_assoc]
      rfl
    rw [hshape]
    have hna : 'D' ∉ "Action: ".data ++ verbL ++ ", ".data := by
      intro hmem
      rcases List.mem_append.1 hmem with hmem | hmem
      · rcases List.mem_append.1 hmem with hmem | hmem
        · exact absurd hmem (by decide)
        · exact h3 hmem
      · exact absurd hmem (by decide)
    have hnt : ':' ∉ " \"".data ++ text ++ "\"".data := by
      intro hmem
      rcases List.mem_append.1 hmem with hmem | hmem
      · rcases List.mem_append.1 hmem with hmem | hmem
        · exact absurd hmem (by decide)
        · exact h6 hmem
      · exact absurd hmem (by decide)
    have hb := pySplitL_boundary (s := "Description:".data)
      (a := "Action: ".data ++ verbL ++ ", ".data)
      (b := " \"".data ++ text ++ "\"".data) (by decide) ?_
    · rw [hb]
      congr 1
      exact pySplitL_no_occ (by decide)
        (not_occ_of_mem (show ':' ∈ "Description:".data by decide) hnt)
    · intro i hi
      have hgen := not_occ_head (s := "Description:".data) (c := 'D')
        (t := "Description:".data ++ (" \"".data ++ text ++ "\"".data)) rfl hna i hi
      rw [← List.append_assoc] at hgen
      exact hgen
  have hc4 : pySplitL "ID:".data RL = [RL] := by
    refine pySplitL_no_occ (by decide) ?_
    have hshape : RL = ("Action: ".data ++ verbL ++ ", Description: \"".data) ++
        (text ++ "\"".data) := by
      rw [hRL]
      simp only [List.append_assoc]
    rw [hshape]
    refine not_occ_split (c := 'I') rfl ?_ ?_
    · intro hmem
      rcases List.mem_append.1 hmem with hmem | hmem
      · rcases List.mem_append.1 hmem with hmem | hmem
        · exact absurd hmem (by decide)
        · exact h4 hmem
      · exact absurd hmem (by decide)
    · refine not_occ_of_mem (show ':' ∈ "ID:".data by decide) ?_
      intro hmem
      rcases List.mem_append.1 hmem with hmem | hmem
      · exact h6 hmem
      · exact absurd hmem (by decide)
  have hstrip : pyStripL (" \"".data ++ text ++ "\"".data) =
      ('"' :: text) ++ ['"'] := by
    rw [show " \"".data ++ text ++ "\"".data =
        ' ' :: (('"' :: text) ++ ['"']) from by simp,
      pyStripL_cons_space]
    exact pyStripL_sandwich (by decide) (by decide) text
  have hquotes : stripQuotesL (('"' :: text) ++ ['"']) = text :=
    stripQuotesL_wrap h7
  have hdata : (String.mk RL).data = RL := rfl
  simp only [TaskAnalyzer.analyze, hdata, hc1, List.headD_cons, hc2, hc3, hc4,
    List.get?_cons_succ, List.get?_cons_zero, List.get?_nil,
    pyStripL_cons_space, h5, hstrip, hquotes]

/-- `analyze` on `Action: <verb>, ID: <digits>` for a verb free of the
delimiter characters and a non-empty decimal numeral. -/
lemma analyze_id (verbL ds : List Char)
    (h1 : ',' ∉ verbL) (h2 : ':' ∉ verbL) (h3 : 'D' ∉ verbL) (h4 : 'I' ∉ verbL)
    (h5 : pyStripL verbL = verbL)
    (hne : ds ≠ []) (hd : ∀ c ∈ ds, c.isDigit = true) :
    TaskAnalyzer.analyze (String.mk
        ("Action: ".data ++ verbL ++ ", ID: ".data ++ ds)) =
      .ok ⟨String.mk verbL, none, some (Int.ofNat (digitsVal ds))⟩ := by
  set RL := "Action: ".data ++ verbL ++ ", ID: ".data ++ ds with hRL
  have hds_colon : ':' ∉ ds := fun hc => by simpa using hd ':' hc
  have hc1 : pySplitL ",".data RL =
      ("Action: ".data ++ verbL) :: pySplitL ",".data (" ID: ".data ++ ds) := by
    have hshape : RL = ("Action: ".data ++ verbL) ++ ",".data ++
        (" ID: ".data ++ ds) := by
      rw [hRL]
      simp only [List.append_assoc]
      rfl
    rw [hshape]
    refine pySplitL_boundary (by decide) ?_
    intro i hi
    have hna : ',' ∉ "Action: ".data ++ verbL := by
      intro hmem
      rcases List.mem_append.1 hmem with hmem | hmem
      · exact absurd hmem (by decide)
      · exact h1 hmem
    have hgen := not_occ_head (s := ",".data) (c := ',')
      (t := ",".data ++ (" ID: ".data ++ ds)) rfl hna i hi
    rw [← List.append_assoc] at hgen
    exact hgen
  have hc2 := colon_split_action verbL h2
  have hc3 : pySplitL "Description:".data RL = [RL] := by
    refine pySplitL_no_occ (by decide) ?_
    have hshape : RL = ("Action: ".data ++ verbL ++ ", I".data) ++
        ('D' :: (": ".data ++ ds)) := by
      rw [hRL]
      simp only [List.append_assoc]
      rfl
    rw [hshape]
    refine not_occ_split (c := 'D') rfl ?_ ?_
    · intro hmem
      rcases List.mem_append.1 hmem with hmem | hmem
      · rcases List.mem_append.1 hmem with hmem | hmem
        · exact absurd hmem (by decide)
        · exact h3 hmem
      · exact absurd hmem (by decide)
    · refine not_occ_cons ?_ ?_
      · exact not_prefix_long (x := "D: ".data) (t := ds) (by decide) (by decide)
      · refine not_occ_split (c := 'D') rfl (by decide) ?_
        exact not_occ_of_mem (show ':' ∈ "Description:".data by decide) hds_colon
  have hc4 : pySplitL "ID:".data RL =
      [("Action: ".data ++ verbL ++ ", ".data), (' ' :: ds)] := by
    have hshape : RL = ("Action: ".data ++ verbL ++ ", ".data) ++
        "ID:".data ++ (' ' :: ds) := by
      rw [hRL]
      simp only [List.append_assoc]
      rfl
    rw [hshape]
    have hna : 'I' ∉ "Action: ".data ++ verbL ++ ", ".data := by
      intro hmem
      rcases List.mem_append.1 hmem with hmem | hmem
      · rcases List.mem_append.1 hmem with hmem | hmem
        · exact absurd hmem (by decide)
        · exact h4 hmem
      · exact absurd hmem (by decide)
    have hb := pySplitL_boundary (s := "ID:".data)
      (a := "Action: ".data ++ verbL ++ ", ".data)
      (b := ' ' :: ds) (by decide) ?_
    · rw [hb]
      congr 1
      refine pySplitL_no_occ (by decide) ?_
      refine not_occ_of_mem (show ':' ∈ "ID:".data by decide) ?_
      intro hmem
      rcases List.mem_cons.1 hmem with hmem | hmem
      · exact absurd hmem (by decide)
      · exact hds_colon hmem
    · intro i hi
      have hgen := not_occ_head (s := "ID:".data) (c := 'I')
        (t := "ID:".data ++ (' ' :: ds)) rfl hna i hi
      rw [← List.append_assoc] at hgen
      exact hgen
  have hint : pyIntL (pyStripL ds) = some (Int.ofNat (digitsVal ds)) := by
    rw [pyStripL_digits hd]
    exact pyIntL_digits hne hd
  have hdata : (String.mk RL).data = RL := rfl
  simp only [TaskAnalyzer.analyze, hdata, hc1, List.headD_cons, hc2, hc3, hc4,
    List.get?_cons_succ, List.get?_cons_zero, List.get?_nil,
    pyStripL_cons_space, h5, hint]

/-- Claim C6, counterexample: the completion
`Action: create, Description: "x Description: y"` is of the documented
form `Action: <verb>, Description: "<text>"`, yet because
`result.split("Description:")[1]` takes the text between the first two
occurrences, the interpreter extracts description `x`, not
`x Description: y`. -/
theorem claim_C6_counterexample :
    TaskAnalyzer.analyze "Action: create, Description: \"x Description: y\"" =
      .ok ⟨"create", some "x", none⟩ ∧
    ("x" : String) ≠ "x Description: y" :=
  ⟨by decide, by decide⟩

/-- Claim C6 as amended: the parsing convention holds for the known
verbs and for quoted texts containing no colon and no double quote
(in particular no embedded `Description:`/`ID:` marker), and for
`ID: <int>` with a non-empty decimal numeral; the literal example
yields `{create, description="Buy groceries"}`. -/
theorem claim_C6 :
    (∀ verb ∈ (["create", "read", "update", "delete", "list"] : List String),
      ∀ text : List Char, ':' ∉ text → '"' ∉ text →
        TaskAnalyzer.analyze (String.mk
            ("Action: ".data ++ verb.data ++ ", Description: \"".data ++
              text ++ "\"".data)) =
          .ok ⟨verb, some (String.mk text), none⟩) ∧
    (∀ verb ∈ (["create", "read", "update", "delete", "list"] : List String),
      ∀ ds : List Char, ds ≠ [] → (∀ c ∈ ds, c.isDigit = true) →
        TaskAnalyzer.analyze (String.mk
            ("Action: ".data ++ verb.data ++ ", ID: ".data ++ ds)) =
          .ok ⟨verb, none, some (Int.ofNat (digitsVal ds))⟩) ∧
    TaskAnalyzer.analyze "Action: create, Description: \"Buy groceries\"" =
      .ok ⟨"create", some "Buy groceries", none⟩ := by
  refine ⟨?_, ?_, by decide⟩
  · intro verb hv text h6 h7
    fin_cases hv <;>
      exact analyze_descr _ _ (by decide) (by decide) (by decide) (by decide)
        (by decide) h6 h7
  · intro verb hv ds hne hd
    fin_cases hv <;>
      exact analyze_id _ _ (by decide) (by decide) (by decide) (by decide)
        (by decide) hne hd

/-- Witness for C6 on a concrete ID-form completion. -/
theorem claim_C6_witness :
    TaskAnalyzer.analyze "Action: delete, ID: 42" =
      .ok ⟨"delete", none, some 42⟩ :=
  claim_C6.2.1 "delete" (by decide) "42".data (by decide) (by decide)

lemma handle_action_unknown (db : DB) (now : Nat) (u : Int) {a : Analysis}
    (h : a.action ∉ (["create", "read", "update", "delete", "list"] : List String)) :
    TaskService.handle_action db now u a = .ok ("Invalid action", db) := by
  simp only [List.mem_cons, List.mem_singleton] at h
  push_neg at h
  obtain ⟨n1, n2, n3, n4, n5⟩ := h
  simp [TaskService.handle_action, n1, n2, n3, n4, n5]

/-- Claim C5 (confirmed): for every action descriptor carrying the
fields its action requires, `handle_action` returns exactly the string
of the outcome table (and an unrecognized action yields
`Invalid action`). -/
theorem claim_C5 (db : DB) (now : Nat) (u : Int) (a : Analysis) :
    (a.action = "create" → ∀ d, a.description = some d →
      TaskService.handle_action db now u a =
        .ok ("Task created: " ++ d ++ " (ID: " ++
            toString (TaskRepository.create db now u ⟨d⟩).1.id ++ ")",
          (TaskRepository.create db now u ⟨d⟩).2)) ∧
    (a.action = "read" → ∀ i, a.id = some i →
      TaskService.handle_action db now u a =
        .ok ((match TaskRepository.read db u i with
          | some t => "Task: " ++ t.description ++ " (ID: " ++ toString t.id ++ ")"
          | none => "Task not found"), db)) ∧
    (a.action = "update" → ∀ i, a.id = some i →
      TaskService.handle_action db now u a =
        .ok ((match (TaskRepository.update db u i ⟨a.description⟩).1 with
          | some t => "Task updated: " ++ t.description ++ " (ID: " ++ toString t.id ++ ")"
          | none => "Task not found"),
          (TaskRepository.update db u i ⟨a.description⟩).2)) ∧
    (a.action = "delete" → ∀ i, a.id = some i →
      TaskService.handle_action db now u a =
        .ok ((if (TaskRepository.delete db u i).1 then "Task deleted"
            else "Task not found"),
          (TaskRepository.delete db u i).2)) ∧
    (a.action = "list" →
      TaskService.handle_action db now u a =
        .ok ((if (TaskRepository.list db u).isEmpty then "No tasks found"
          else String.intercalate "\n" ((TaskRepository.list db u).map
            (fun t => "ID: " ++ toString t.id ++ ", Description: " ++ t.description))),
          db)) ∧
    (a.action ∉ (["create", "read", "update", "delete", "list"] : List String) →
      TaskService.handle_action db now u a = .ok ("Invalid action", db)) := by
  obtain ⟨act, descr, tid⟩ := a
  refine ⟨?_, ?_, ?_, ?_, ?_, fun h => handle_action_unknown db now u h⟩
  · rintro rfl d rfl
    simp [TaskService.handle_action, TaskRepository.create, TaskResponse.ofTask]
  · rintro rfl i rfl
    rcases hr : TaskRepository.read db u i with _ | t <;>
      simp [TaskService.handle_action, hr]
  · rintro rfl i rfl
    rcases hr : (TaskRepository.update db u i ⟨descr⟩).1 with _ | t <;>
      simp [TaskService.handle_action, hr]
  · rintro rfl i rfl
    simp [TaskService.handle_action]
  · rintro rfl
    by_cases he : (TaskRepository.list db u).isEmpty <;>
      simp [TaskService.handle_action, he]

/-- Witness for C5: a concrete create descriptor renders the table
string. -/
theorem claim_C5_witness :
    TaskService.handle_action emptyDB 0 1 ⟨"create", some "x", none⟩ =
      .ok ("Task created: x (ID: 1)", ⟨[⟨1, 1, "x", 0⟩], 2⟩) :=
  (claim_C5 emptyDB 0 1 ⟨"create", some "x", none⟩).1 rfl "x" rfl

/-- Claim C7, counterexample: the completion `hello` cannot be parsed
into a known action, and processing it raises `IndexError`
(`"hello".split(",")[0].split(":")[1]`) out of the message handler
instead of rendering `Invalid action`. -/
theorem claim_C7_counterexample :
    handle_message emptyDB 0 1 "hello" = .err .indexError := by
  decide

/-- Claim C7 as amended: a completion that parses (first comma-chunk
has a colon; any `ID:` field is an integer) but names an unrecognized
action is rendered as `Invalid action`; a completion the parser cannot
process raises the parser's exception out of the message handler. -/
theorem claim_C7 (db : DB) (now : Nat) (u : Int) (s : String) :
    (∀ a, TaskAnalyzer.analyze s = .ok a →
      a.action ∉ (["create", "read", "update", "delete", "list"] : List String) →
      handle_message db now u s = .ok ("Invalid action", db)) ∧
    (∀ e, TaskAnalyzer.analyze s = .err e →
      handle_message db now u s = .err e) := by
  constructor
  · intro a ha hnot
    simp only [handle_message, ha]
    exact handle_action_unknown db now u hnot
  · intro e he
    simp only [handle_message, he]

/-- Witness for C7: an unrecognized verb with a well-formed ID field. -/
theorem claim_C7_witness :
    handle_message emptyDB 0 1 "Action: fly, ID: 7" =
      .ok ("Invalid action", emptyDB) :=
  (claim_C7 emptyDB 0 1 "Action: fly, ID: 7").1 ⟨"fly", none, some 7⟩
    (by decide) (by decide)

end TaskBot
